import Mathlib

/-
Verification of the babeltrace CTF filesystem plugins (fs-src/fs.c and
fs-sink/write.c) against their natural-language specification.  The C data
model and operations are shallowly embedded below: machine integers become
Nat (the C constant -1ULL becomes 2^64 - 1), pointer identities become Nat
handles, GLib arrays and hash tables become lists and association lists, and
fallible operations return Option.  External collaborators (the per-file
stream reader, the metadata decoder, realpath, clock-value conversion) are
modelled as oracles: explicit parameters or pre-recorded result fields.
-/

set_option maxRecDepth 4000

namespace Babeltrace

/- The C constant -1ULL, used throughout fs.c as the in-band "absent" value
for uint64 quantities (stream instance id, begin timestamp). -/
def minusOneULL : Nat := 2 ^ 64 - 1

/- ===== fs-src/fs.c: stream file info and sorted insertion (C2) ===== -/

/- struct ctf_fs_ds_file_info: a stream file path plus the begin timestamp
(in ns) of its first packet. -/
structure DsFileInfo where
  path : String
  begin_ns : Nat
  deriving DecidableEq

/- The insertion loop of ctf_fs_ds_file_group_add_ds_file_info (fs.c:594-608):
find the first index whose begin_ns is strictly greater than the new file's
begin_ns and insert there; append when there is none. -/
def ds_file_info_insert (f : DsFileInfo) : List DsFileInfo → List DsFileInfo
  | [] => [f]
  | g :: gs =>
    if f.begin_ns < g.begin_ns then f :: g :: gs else g :: ds_file_info_insert f gs

/- ctf_fs_ds_file_group_add_ds_file_info (fs.c:580-618), acting on the
group's ds_file_infos array. -/
def ctf_fs_ds_file_group_add_ds_file_info (infos : List DsFileInfo)
    (path : String) (begin_ns : Nat) : List DsFileInfo :=
  ds_file_info_insert { path := path, begin_ns := begin_ns } infos

/- A whole sequence of insertions into one group, starting from the empty
ds_file_infos array a fresh group has. -/
def add_ds_file_infos (xs : List (String × Nat)) : List DsFileInfo :=
  xs.foldl (fun infos x => ctf_fs_ds_file_group_add_ds_file_info infos x.1 x.2) []

/- ===== fs-src/fs.c: metadata-info query text handling (C9) ===== -/

/- METADATA_TEXT_SIG (fs.c:55). -/
def metadataTextSig : List Char := "/* CTF 1.8".toList

/- The result map built by ctf_fs_query for "metadata-info": the "text" and
"is-packetized" entries. -/
structure MetadataInfoResult where
  text : List Char
  is_packetized : Bool
  deriving DecidableEq

/- The text-assembly tail of ctf_fs_query (fs.c:1413-1437): g_metadata_text
starts empty; when the decoded/raw metadata text does not begin with the CTF
signature (strncmp against the 10 signature characters), the signature line
"/* CTF 1.8 */\n\n" is put first; the metadata text is then appended, and the
result carries the is-packetized flag obtained from the decoder. -/
def ctf_fs_query_metadata_info (metadata_text : List Char) (is_packetized : Bool) :
    MetadataInfoResult :=
  let g_metadata_text : List Char :=
    if metadataTextSig <+: metadata_text then []
    else metadataTextSig ++ (" */\n\n".toList)
  { text := g_metadata_text ++ metadata_text, is_packetized := is_packetized }

/- ===== fs-src/fs.c: the notification iterator (C1) ===== -/

/- One outcome of the external per-file reader ctf_fs_ds_file_next: either a
notification (abstracted to a Nat handle) or an error; reaching the end of
the recorded outcome list models the End status. -/
inductive ReaderOut where
  | notif (n : Nat)
  | error
  deriving DecidableEq

/- enum bt_notification_iterator_status restricted to the values
ctf_fs_iterator_next produces: OK (carrying the notification), END, ERROR. -/
inductive NextStatus where
  | notif (n : Nat)
  | end_
  | error
  deriving DecidableEq

/- The external collaborator ctf_fs_ds_file_next on one open stream file,
modelled over the list of outcomes the file's reader still has to deliver:
an exhausted list yields the End status. -/
def ctf_fs_ds_file_next : List ReaderOut → NextStatus × List ReaderOut
  | [] => (.end_, [])
  | .notif n :: rest => (.notif n, rest)
  | .error :: rest => (.error, rest)

/- struct ctf_fs_notif_iter_data: the group's files (each as the outcome
list its reader will deliver), the index of the current file, and the
remaining outcomes of the currently open ds_file. -/
structure NotifIterData where
  ds_file_infos : List (List ReaderOut)
  ds_file_info_index : Nat
  ds_file : List ReaderOut
  deriving DecidableEq

/- ctf_fs_iterator_next (fs.c:96-144).  openOk models whether
notif_iter_data_set_current_ds_file succeeds in opening file i
(ctf_fs_ds_file_create can fail).  The C asserts that a brand new stream
file never immediately yields END (fs.c:139): an assertion violation aborts
the iterator rather than returning END; that aborted outcome is modelled as
the Error status, matching the spec's reading of the invariant violation. -/
def ctf_fs_iterator_next (openOk : Nat → Bool) (d : NotifIterData) :
    NextStatus × NotifIterData :=
  match ctf_fs_ds_file_next d.ds_file with
  | (.end_, _) =>
    let idx := d.ds_file_info_index + 1
    if idx = d.ds_file_infos.length then
      (.end_, { d with ds_file_info_index := idx })
    else if openOk idx = false then
      (.error, { d with ds_file_info_index := idx })
    else
      let fresh := d.ds_file_infos.getD idx []
      match ctf_fs_ds_file_next fresh with
      | (.end_, rest) => (.error, { d with ds_file_info_index := idx, ds_file := rest })
      | (st, rest) => (st, { d with ds_file_info_index := idx, ds_file := rest })
  | (st, rest) => (st, { d with ds_file := rest })

/- ===== fs-src/fs.c: first-packet inspection and grouping (C3, C5, C10) ===== -/

/- A stream class of the trace's metadata, identified by its id; pointer
identity of bt_ctf_stream_class objects is modelled by value equality of
these records (each class of a trace is a distinct object with a distinct
id). -/
structure StreamClassMeta where
  scid : Nat
  deriving DecidableEq

/- The first packet's header struct, as far as fs.c inspects it.  Each field
is Option (Option Nat): none models the named field being absent from the
struct (bt_ctf_field_structure_get_field_by_name returns NULL), some none
models bt_ctf_field_unsigned_integer_get_value failing, some (some v) a
successfully read uint64 value v. -/
structure PacketHeader where
  stream_id : Option (Option Nat)
  stream_instance_id : Option (Option Nat)
  deriving DecidableEq

/- The timestamp_begin field of the first packet's context struct, with the
results of the external clock machinery recorded as oracle fields:
has_mapped_clock_class models bt_ctf_field_type_integer_get_mapped_clock_class
returning non-NULL, raw_value the result of reading the field's uint64 value,
and ns_from_epoch the signed int64 result of
bt_ctf_clock_value_get_value_ns_from_epoch on that raw value (none = the
clock-value creation or conversion failed). -/
structure TimestampBeginField where
  has_mapped_clock_class : Bool
  raw_value : Option Nat
  ns_from_epoch : Option Int
  deriving DecidableEq

/- The first packet's context struct, as far as fs.c inspects it. -/
structure PacketContext where
  timestamp_begin : Option TimestampBeginField
  deriving DecidableEq

/- get_packet_header_stream_instance_id (fs.c:349-376): -1ULL when the
header, the field, or the value read is missing; otherwise the value read --
which may itself be -1ULL. -/
def get_packet_header_stream_instance_id : Option PacketHeader → Nat
  | none => minusOneULL
  | some h =>
    match h.stream_instance_id with
    | none => minusOneULL
    | some none => minusOneULL
    | some (some v) => v

/- stream_class_from_packet_header (fs.c:378-421).  A missing header falls
through to the single-stream-class path (first class of the trace, NULL when
the trace has none); a header whose stream_id field is absent returns NULL
directly; a failed value read (or a read value of -1ULL) also takes the
single-stream-class path; otherwise the class is looked up by id. -/
def stream_class_from_packet_header (stream_classes : List StreamClassMeta) :
    Option PacketHeader → Option StreamClassMeta
  | none => stream_classes.head?
  | some h =>
    match h.stream_id with
    | none => none
    | some r =>
      let stream_id : Nat := match r with | none => minusOneULL | some v => v
      if stream_id = minusOneULL then stream_classes.head?
      else stream_classes.find? (fun sc => decide (sc.scid = stream_id))

/- get_packet_context_timestamp_begin_ns (fs.c:423-480): -1ULL when the
context, the field, the mapped clock class, the raw read, or the ns
conversion is missing; otherwise the int64 ns value cast to uint64
(fs.c:472), i.e. reduced modulo 2^64. -/
def get_packet_context_timestamp_begin_ns : Option PacketContext → Nat
  | none => minusOneULL
  | some c =>
    match c.timestamp_begin with
    | none => minusOneULL
    | some f =>
      if f.has_mapped_clock_class = false then minusOneULL
      else
        match f.raw_value with
        | none => minusOneULL
        | some _ =>
          match f.ns_from_epoch with
          | none => minusOneULL
          | some ns => (Int.emod ns (2 ^ 64)).toNat

/- struct ctf_fs_ds_file_group.  stream_id records what
bt_ctf_stream_get_id later reports for the group's stream: the creating call
(fs.c:555-561) passes the instance id when it is not -1ULL and creates the
stream without an id otherwise, in which case get_id reports -1 (cast to
uint64: -1ULL) -- so the stored value is the instance id in both cases. -/
structure DsFileGroup where
  stream_class : StreamClassMeta
  stream_id : Nat
  ds_file_infos : List DsFileInfo
  deriving DecidableEq

/- ctf_fs_ds_file_group_create (fs.c:536-577): a fresh group with an empty
ds_file_infos array. -/
def ctf_fs_ds_file_group_create (sc : StreamClassMeta) (stream_instance_id : Nat) :
    DsFileGroup :=
  { stream_class := sc, stream_id := stream_instance_id, ds_file_infos := [] }

/- Adding one file info to a group (the call at fs.c:678/723). -/
def ds_file_group_add (g : DsFileGroup) (path : String) (begin_ns : Nat) : DsFileGroup :=
  { g with ds_file_infos := ctf_fs_ds_file_group_add_ds_file_info g.ds_file_infos path begin_ns }

/- struct ctf_fs_trace, restricted to what grouping touches: the metadata's
stream classes and the ds_file_groups array. -/
structure CtfFsTrace where
  stream_classes : List StreamClassMeta
  ds_file_groups : List DsFileGroup
  deriving DecidableEq

/- The search-and-modify of the existing-group loop (fs.c:692-711) followed
by the in-place ctf_fs_ds_file_group_add_ds_file_info on the matched group:
apply f to the first list entry satisfying p, none when no entry matches. -/
def updateFirstMatch (p : DsFileGroup → Bool) (f : DsFileGroup → DsFileGroup) :
    List DsFileGroup → Option (List DsFileGroup)
  | [] => none
  | g :: gs =>
    if p g then some (f g :: gs)
    else (updateFirstMatch p f gs).map (fun gs2 => g :: gs2)

/- add_ds_file_to_ds_file_group (fs.c:620-744), taking the first packet's
header and context structs (obtained by the external
ctf_fs_ds_file_get_packet_header_context_fields) as inputs.  none models the
error return. -/
def add_ds_file_to_ds_file_group (tr : CtfFsTrace) (path : String)
    (hdr : Option PacketHeader) (ctx : Option PacketContext) : Option CtfFsTrace :=
  let stream_instance_id0 := get_packet_header_stream_instance_id hdr
  let begin_ns := get_packet_context_timestamp_begin_ns ctx
  match stream_class_from_packet_header tr.stream_classes hdr with
  | none => none
  | some stream_class =>
    let stream_instance_id :=
      if begin_ns = minusOneULL then minusOneULL else stream_instance_id0
    if stream_instance_id = minusOneULL then
      let g := ds_file_group_add (ctf_fs_ds_file_group_create stream_class stream_instance_id)
        path begin_ns
      some { tr with ds_file_groups := tr.ds_file_groups ++ [g] }
    else
      match updateFirstMatch
          (fun g => decide (g.stream_class = stream_class) &&
            decide (g.stream_id = stream_instance_id))
          (fun g => ds_file_group_add g path begin_ns) tr.ds_file_groups with
      | some gs => some { tr with ds_file_groups := gs }
      | none =>
        let g := ds_file_group_add
          (ctf_fs_ds_file_group_create stream_class stream_instance_id) path begin_ns
        some { tr with ds_file_groups := tr.ds_file_groups ++ [g] }

/- One inspected stream file as fed to add_ds_file_to_ds_file_group by the
directory loop of create_ds_file_groups. -/
structure DsFileInput where
  path : String
  header : Option PacketHeader
  context : Option PacketContext
  deriving DecidableEq

/- The per-file loop of create_ds_file_groups (fs.c:764-822), restricted to
the non-skipped stream files: an error from add_ds_file_to_ds_file_group
aborts the whole construction. -/
def add_ds_files (tr : CtfFsTrace) : List DsFileInput → Option CtfFsTrace
  | [] => some tr
  | f :: fs =>
    match add_ds_file_to_ds_file_group tr f.path f.header f.context with
    | none => none
    | some tr2 => add_ds_files tr2 fs

/- ===== fs-sink/write.c: the mirroring sink (C4) ===== -/

/- One schema-copy operation performed by the sink, tagged with the input
identity it was keyed on: ctf_copy_trace (in insert_new_writer),
ctf_copy_stream_class (in insert_new_stream_class),
bt_ctf_writer_create_stream (in insert_new_stream), and
ctf_copy_event_class (in writer_output_event). -/
inductive CopyOp where
  | copyTrace (t : Nat)
  | copyStreamClass (sc : Nat)
  | copyStream (s : Nat)
  | copyEventClass (sc : Nat) (ec : Nat)
  deriving DecidableEq

/- struct writer_component, restricted to its identity-keyed maps: trace_map
(input traces owning a writer), stream_class_map (input stream class to the
set of event-class ids already copied into its output stream class),
stream_map (input streams owning an output stream), plus a log of the copy
operations performed so far.  The GHashTable keys are pointer identities,
modelled as Nat handles. -/
structure WriterComponent where
  trace_map : List Nat
  stream_class_map : List (Nat × List Nat)
  stream_map : List Nat
  copies : List CopyOp
  deriving DecidableEq

/- The writer component right after create: empty maps. -/
def emptyWriterComponent : WriterComponent :=
  { trace_map := [], stream_class_map := [], stream_map := [], copies := [] }

/- g_hash_table_lookup on stream_class_map. -/
def scLookup (m : List (Nat × List Nat)) (sc : Nat) : Option (List Nat) :=
  match m with
  | [] => none
  | (k, v) :: rest => if k = sc then some v else scLookup rest sc

/- bt_ctf_stream_class_add_event_class on the output stream class mapped to
input stream class sc: record event-class id ec as present. -/
def scAddEventClass (m : List (Nat × List Nat)) (sc ec : Nat) : List (Nat × List Nat) :=
  match m with
  | [] => []
  | (k, v) :: rest =>
    if k = sc then (k, ec :: v) :: rest else (k, v) :: scAddEventClass rest sc ec

/- insert_new_writer (write.c:162-213): create a writer for the input trace,
deep-copy the trace schema (ctf_copy_trace), insert into trace_map. -/
def insert_new_writer (wc : WriterComponent) (trace : Nat) : WriterComponent :=
  { wc with trace_map := trace :: wc.trace_map,
            copies := wc.copies ++ [CopyOp.copyTrace trace] }

/- get_writer (write.c:216-243): look the input trace up in trace_map and
create the writer only when absent. -/
def get_writer (wc : WriterComponent) (trace : Nat) : WriterComponent :=
  if trace ∈ wc.trace_map then wc else insert_new_writer wc trace

/- insert_new_stream_class (write.c:44-98): copy the clock classes and the
stream class into the writer trace (ctf_copy_stream_class copies the class
layouts but none of its event classes, which write.c copies lazily per
event), and insert into stream_class_map. -/
def insert_new_stream_class (wc : WriterComponent) (sc : Nat) : WriterComponent :=
  { wc with stream_class_map := (sc, []) :: wc.stream_class_map,
            copies := wc.copies ++ [CopyOp.copyStreamClass sc] }

/- insert_new_stream (write.c:101-142): resolve the output stream class
(creating it only when stream_class_map has no entry), create the output
stream, and insert into stream_map. -/
def insert_new_stream (wc : WriterComponent) (sc stream : Nat) : WriterComponent :=
  let wc1 :=
    match scLookup wc.stream_class_map sc with
    | some _ => wc
    | none => insert_new_stream_class wc sc
  { wc1 with stream_map := stream :: wc1.stream_map,
             copies := wc1.copies ++ [CopyOp.copyStream stream] }

/- get_writer_stream (write.c:246-283): resolve the writer by the stream's
trace, then the output stream, creating the latter only when stream_map has
no entry for the input stream. -/
def get_writer_stream (wc : WriterComponent) (trace sc stream : Nat) : WriterComponent :=
  let wc1 := get_writer wc trace
  if stream ∈ wc1.stream_map then wc1 else insert_new_stream wc1 sc stream

/- writer_new_packet (write.c:286-337): the map-affecting part is
get_writer_stream; the packet-context copy touches no map. -/
def writer_new_packet (wc : WriterComponent) (trace sc stream : Nat) : WriterComponent :=
  get_writer_stream wc trace sc stream

/- writer_output_event (write.c:384-492): the input stream must already be
in stream_map and the input stream class in stream_class_map (else error,
leaving all maps unchanged); the event class is looked up by id in the
output stream class and deep-copied only when absent. -/
def writer_output_event (wc : WriterComponent) (sc stream ec : Nat) : WriterComponent :=
  if stream ∈ wc.stream_map then
    match scLookup wc.stream_class_map sc with
    | none => wc
    | some ecs =>
      if ec ∈ ecs then wc
      else { wc with stream_class_map := scAddEventClass wc.stream_class_map sc ec,
                     copies := wc.copies ++ [CopyOp.copyEventClass sc ec] }
  else wc

/- writer_close_packet (write.c:340-381): flushes the packet; no map is
modified. -/
def writer_close_packet (wc : WriterComponent) (stream : Nat) : WriterComponent :=
  wc

/- A notification as consumed by the sink, carrying the identities the
handlers dereference: the packet's stream, its stream class and trace, and
for events the event class id. -/
inductive SinkNotif where
  | packetBegin (trace sc stream : Nat)
  | event (sc stream ec : Nat)
  | packetEnd (stream : Nat)
  deriving DecidableEq

/- The sink's consume dispatch over one notification. -/
def sink_consume (wc : WriterComponent) : SinkNotif → WriterComponent
  | SinkNotif.packetBegin trace sc stream => writer_new_packet wc trace sc stream
  | SinkNotif.event sc stream ec => writer_output_event wc sc stream ec
  | SinkNotif.packetEnd stream => writer_close_packet wc stream

/- A whole run of the sink over a notification sequence, from the fresh
component. -/
def sink_run (notifs : List SinkNotif) : WriterComponent :=
  notifs.foldl sink_consume emptyWriterComponent

/- The bookkeeping invariant of the sink's copy log, used to prove the
at-most-one-copy-per-identity property: every copy count equals the
indicator of the corresponding map entry. -/
def SinkCopyInv (wc : WriterComponent) : Prop :=
  (∀ t, wc.copies.countP (fun c => decide (c = CopyOp.copyTrace t)) =
    if t ∈ wc.trace_map then 1 else 0) ∧
  (∀ sc, wc.copies.countP (fun c => decide (c = CopyOp.copyStreamClass sc)) =
    if (scLookup wc.stream_class_map sc).isSome then 1 else 0) ∧
  (∀ s, wc.copies.countP (fun c => decide (c = CopyOp.copyStream s)) =
    if s ∈ wc.stream_map then 1 else 0) ∧
  (∀ sc ec, wc.copies.countP (fun c => decide (c = CopyOp.copyEventClass sc ec)) =
    match scLookup wc.stream_class_map sc with
    | none => 0
    | some ecs => if ec ∈ ecs then 1 else 0)

/- ===== fs-src/fs.c: trace discovery (C6, C8) ===== -/

/- A directory tree as visible to the discovery walk: a filesystem entry is
a regular file or a directory with children (symlink resolution is folded
into the tree the walk observes). -/
inductive Entry where
  | file (name : String)
  | dir (name : String) (children : List Entry)

/- g_dir_read_name's view of an entry's basename. -/
def Entry.name : Entry → String
  | .file n => n
  | .dir n _ => n

/- The g_file_test(D/metadata, G_FILE_TEST_IS_REGULAR) probe: a directory
contains a regular file named "metadata" (a subdirectory of that name does
not count). -/
def isTraceChildren (cs : List Entry) : Bool :=
  cs.any (fun c => match c with
    | .file n => decide (n = "metadata")
    | .dir _ _ => false)

/- path_is_ctf_trace (fs.c:949-970): testing "path/metadata"; under a
regular file no such path exists. -/
def path_is_ctf_trace (e : Entry) : Bool :=
  match e with
  | .file _ => false
  | .dir _ cs => isTraceChildren cs

/- Paths are lists of components; the empty list models the filesystem root
"/".  A realpath oracle maps the walked (possibly symlinked) path to its
canonical form, none modelling realpath() failure. -/
def realpath_id : List String → Option (List String) :=
  fun p => some p

/- add_trace_path (fs.c:972-1010): canonicalize via realpath, refuse the
filesystem root, and prepend the canonical path to the collected list. -/
def add_trace_path (rp : List String → Option (List String))
    (trace_paths : List (List String)) (path : List String) :
    Option (List (List String)) :=
  match rp path with
  | none => none
  | some r => if r = [] then none else some (r :: trace_paths)

mutual

/- find_ctf_traces (fs.c:1012-1082): when the starting path is itself a CTF
trace, record it and do not recurse; when it is a regular file, stop (not a
directory); otherwise walk every child under its sub-path.  none models the
error return that aborts the whole search. -/
def find_ctf_traces (rp : List String → Option (List String))
    (trace_paths : List (List String)) (path : List String) :
    Entry → Option (List (List String))
  | .file _ => some trace_paths
  | .dir _ cs =>
    if isTraceChildren cs then add_trace_path rp trace_paths path
    else find_ctf_traces_children rp trace_paths path cs

/- The g_dir_read_name loop of find_ctf_traces (fs.c:1056-1070): recurse
into each child at path/basename, threading the collected list and aborting
on error. -/
def find_ctf_traces_children (rp : List String → Option (List String))
    (trace_paths : List (List String)) (path : List String) :
    List Entry → Option (List (List String))
  | [] => some trace_paths
  | c :: cs =>
    match find_ctf_traces rp trace_paths (path ++ [c.name]) c with
    | none => none
    | some acc => find_ctf_traces_children rp acc path cs

end

/- The discovery part of create_ctf_fs_traces (fs.c:1153-1227): run
find_ctf_traces from the path parameter and fail when it errors or finds no
trace; per-trace construction (metadata parsing and grouping) is external to
this claim and modelled as succeeding.  The Bool is the init success. -/
def create_ctf_fs_traces (rp : List String → Option (List String))
    (path_param : List String) (e : Entry) : Bool :=
  match find_ctf_traces rp [] path_param e with
  | none => false
  | some [] => false
  | some (_ :: _) => true

/- Looking a relative component path up in the tree (the filesystem's own
name resolution, used to state what discovery returns). -/
def subtree : Entry → List String → Option Entry
  | e, [] => some e
  | .file _, _ :: _ => none
  | .dir _ cs, m :: rest =>
    match cs.find? (fun c => decide (c.name = m)) with
    | none => none
    | some c => subtree c rest

/- Whether the directory at relative path p below e is a CTF trace
directory. -/
def traceAt (e : Entry) (p : List String) : Bool :=
  match subtree e p with
  | none => false
  | some s => path_is_ctf_trace s

mutual

/- Real directories present each basename once; the characterization of the
walk by paths needs this. -/
def uniqueNames : Entry → Bool
  | .file _ => true
  | .dir _ cs => decide ((cs.map Entry.name).Nodup) && uniqueNamesList cs

def uniqueNamesList : List Entry → Bool
  | [] => true
  | c :: cs => uniqueNames c && uniqueNamesList cs

end

/- ===== fs-src/fs.c: display-name derivation (C7) ===== -/

/- The NUL character terminating C strings; canonical paths contain none. -/
def nulChar : Char := Char.ofNat 0

/- One pass of the inner for-loop of create_trace_names (fs.c:1100-1122) at
position i, threading the common character (initially '\0' per iteration):
none models the `done` flag being set -- some path ends at i (its character
reads as '\0') or disagrees with the established common character --
otherwise the common character at position i is reported. -/
def passAt (paths : List (List Char)) (i : Nat) (common : Char) : Option Char :=
  match paths with
  | [] => some common
  | p :: rest =>
    match p[i]? with
    | none => none
    | some c =>
      if common = nulChar then passAt rest i c
      else if c ≠ common then none
      else passAt rest i common

/- The while(true) loop of create_trace_names (fs.c:1097-1139): advance
position by position while no pass sets `done`, and whenever the common
character at the position is a slash remember position+1 as the number of
characters to strip.  The C loop terminates exactly when passAt yields
none, which happens no later than the first path's length because each pass
inspects the first path first; the fuel below is that bound plus one, so it
reproduces the loop exactly. -/
def create_trace_names_loop (paths : List (List Char)) (fuel i strip : Nat) : Nat :=
  match fuel with
  | 0 => strip
  | f + 1 =>
    match passAt paths i nulChar with
    | none => strip
    | some c =>
      create_trace_names_loop paths f (i + 1) (if c = '/' then i + 1 else strip)

/- create_trace_names (fs.c:1084-1151) on a non-empty path list (the caller
create_ctf_fs_traces only calls it on a non-empty list; on an empty list
the C loop would never set `done`): drop the computed number of characters
from every path. -/
def create_trace_names (p0 : List Char) (rest : List (List Char)) : List (List Char) :=
  let chars_to_strip := create_trace_names_loop (p0 :: rest) (p0.length + 1) 0 0
  (p0 :: rest).map (fun p => p.drop chars_to_strip)

end Babeltrace

namespace Babeltrace

/- ===== Theorems ===== -/

theorem mem_ds_file_info_insert (f b : DsFileInfo) (l : List DsFileInfo) :
    b ∈ ds_file_info_insert f l ↔ b = f ∨ b ∈ l := by
  induction l with
  | nil => simp [ds_file_info_insert]
  | cons g gs ih =>
    by_cases hlt : f.begin_ns < g.begin_ns
    · simp [ds_file_info_insert, if_pos hlt]
    · simp only [ds_file_info_insert, if_neg hlt, List.mem_cons, ih]
      tauto

theorem ds_file_info_insert_pairwise (f : DsFileInfo) (l : List DsFileInfo)
    (h : l.Pairwise (fun a b => a.begin_ns ≤ b.begin_ns)) :
    (ds_file_info_insert f l).Pairwise (fun a b => a.begin_ns ≤ b.begin_ns) := by
  induction l with
  | nil => simp [ds_file_info_insert]
  | cons g gs ih =>
    rcases List.pairwise_cons.mp h with ⟨hg, hgs⟩
    by_cases hlt : f.begin_ns < g.begin_ns
    · simp only [ds_file_info_insert, if_pos hlt]
      refine List.pairwise_cons.mpr ⟨?_, h⟩
      intro b hb
      rcases List.mem_cons.mp hb with rfl | hb
      · exact Nat.le_of_lt hlt
      · exact Nat.le_trans (Nat.le_of_lt hlt) (hg b hb)
    · simp only [ds_file_info_insert, if_neg hlt]
      refine List.pairwise_cons.mpr ⟨?_, ih hgs⟩
      intro b hb
      rcases (mem_ds_file_info_insert f b gs).mp hb with rfl | hb2
      · exact Nat.le_of_not_lt hlt
      · exact hg b hb2

theorem ds_file_info_insert_filter_ne (f : DsFileInfo) (l : List DsFileInfo)
    (v : Nat) (hv : f.begin_ns ≠ v) :
    (ds_file_info_insert f l).filter (fun g => decide (g.begin_ns = v)) =
      l.filter (fun g => decide (g.begin_ns = v)) := by
  induction l with
  | nil => simp [ds_file_info_insert, hv]
  | cons g gs ih =>
    by_cases hlt : f.begin_ns < g.begin_ns
    · simp [ds_file_info_insert, if_pos hlt, List.filter_cons, hv]
    · simp only [ds_file_info_insert, if_neg hlt, List.filter_cons]
      by_cases hg : g.begin_ns = v <;> simp [hg, ih]

theorem ds_file_info_insert_filter_eq (f : DsFileInfo) (l : List DsFileInfo)
    (h : l.Pairwise (fun a b => a.begin_ns ≤ b.begin_ns)) :
    (ds_file_info_insert f l).filter (fun g => decide (g.begin_ns = f.begin_ns)) =
      l.filter (fun g => decide (g.begin_ns = f.begin_ns)) ++ [f] := by
  induction l with
  | nil => simp [ds_file_info_insert]
  | cons g gs ih =>
    rcases List.pairwise_cons.mp h with ⟨hg, hgs⟩
    by_cases hlt : f.begin_ns < g.begin_ns
    · have hgf : ¬ g.begin_ns = f.begin_ns := by omega
      have hnone : gs.filter (fun x => decide (x.begin_ns = f.begin_ns)) = [] := by
        apply List.filter_eq_nil_iff.mpr
        intro x hx
        have := hg x hx
        simp only [decide_eq_true_eq]
        omega
      simp [ds_file_info_insert, if_pos hlt, List.filter_cons, hgf, hnone]
    · simp only [ds_file_info_insert, if_neg hlt, List.filter_cons]
      by_cases hgf : g.begin_ns = f.begin_ns <;> simp [hgf, ih hgs]

theorem add_ds_file_infos_aux (xs : List (String × Nat)) (acc : List DsFileInfo)
    (h : acc.Pairwise (fun a b => a.begin_ns ≤ b.begin_ns)) :
    (xs.foldl (fun infos x => ctf_fs_ds_file_group_add_ds_file_info infos x.1 x.2)
        acc).Pairwise (fun a b => a.begin_ns ≤ b.begin_ns) ∧
    ∀ v, (xs.foldl (fun infos x => ctf_fs_ds_file_group_add_ds_file_info infos x.1 x.2)
        acc).filter (fun g => decide (g.begin_ns = v)) =
      acc.filter (fun g => decide (g.begin_ns = v)) ++
        (xs.map (fun x => DsFileInfo.mk x.1 x.2)).filter (fun g => decide (g.begin_ns = v)) := by
  induction xs generalizing acc with
  | nil => simpa using h
  | cons x xs ih =>
    have hstep : (ctf_fs_ds_file_group_add_ds_file_info acc x.1 x.2).Pairwise
        (fun a b => a.begin_ns ≤ b.begin_ns) :=
      ds_file_info_insert_pairwise _ _ h
    rcases ih (ctf_fs_ds_file_group_add_ds_file_info acc x.1 x.2) hstep with ⟨h1, h2⟩
    refine ⟨by simpa using h1, ?_⟩
    intro v
    have h2v := h2 v
    simp only [List.foldl_cons] at *
    rw [h2v]
    by_cases hv : x.2 = v
    · subst hv
      have := ds_file_info_insert_filter_eq (DsFileInfo.mk x.1 x.2) acc h
      simp only [ctf_fs_ds_file_group_add_ds_file_info]
      rw [this]
      simp [List.filter_cons, List.append_assoc]
    · have := ds_file_info_insert_filter_ne (DsFileInfo.mk x.1 x.2) acc v hv
      simp only [ctf_fs_ds_file_group_add_ds_file_info]
      rw [this]
      simp [List.filter_cons, hv]

/-- Claim C2: for every stream file group and every sequence of file
insertions into it, after each insertion the group's file list is sorted by
begin_ns in ascending (non-decreasing) order, and files with equal begin_ns
appear in the order they were inserted (the sublist of files holding any
fixed begin_ns value equals the subsequence of insertions carrying that
value). -/
theorem claim_C2 (xs : List (String × Nat)) :
    (add_ds_file_infos xs).Pairwise (fun a b => a.begin_ns ≤ b.begin_ns) ∧
    ∀ v, (add_ds_file_infos xs).filter (fun g => decide (g.begin_ns = v)) =
      (xs.map (fun x => DsFileInfo.mk x.1 x.2)).filter (fun g => decide (g.begin_ns = v)) := by
  have := add_ds_file_infos_aux xs [] (by simp)
  simpa [add_ds_file_infos] using this

/-- Claim C9: for every successful metadata-info query, the returned text
begins with the CTF signature "/* CTF 1.8": when the stored metadata text
does not already begin with that signature, a signature line is prepended
before the text is returned, and the result also carries the is-packetized
flag. -/
theorem claim_C9 (metadata_text : List Char) (is_packetized : Bool) :
    metadataTextSig <+: (ctf_fs_query_metadata_info metadata_text is_packetized).text ∧
    (metadataTextSig <+: metadata_text →
      (ctf_fs_query_metadata_info metadata_text is_packetized).text = metadata_text) ∧
    (¬ metadataTextSig <+: metadata_text →
      (ctf_fs_query_metadata_info metadata_text is_packetized).text =
        metadataTextSig ++ (" */\n\n".toList) ++ metadata_text) ∧
    (ctf_fs_query_metadata_info metadata_text is_packetized).is_packetized = is_packetized := by
  by_cases h : metadataTextSig <+: metadata_text
  · refine ⟨?_, fun _ => ?_, fun hn => absurd h hn, rfl⟩ <;>
      simp [ctf_fs_query_metadata_info, if_pos h, h]
  · refine ⟨?_, fun hp => absurd hp h, fun _ => ?_, rfl⟩ <;>
      simp [ctf_fs_query_metadata_info, if_neg h, List.append_assoc]

theorem getElem?_append_left_of_some {a : Type} (l l2 : List a) (i : Nat) (x : a)
    (h : l[i]? = some x) : (l ++ l2)[i]? = some x := by
  have hlen : i < l.length := by
    by_contra hcon
    rw [List.getElem?_eq_none (Nat.le_of_not_lt hcon)] at h
    exact Option.noConfusion h
  rw [List.getElem?_append_left hlen]
  exact h

/-- Claim C1: for every source iterator whose current file's reader returns
End: if the current file is the last of the group (file_idx reaches the group
length) next() returns End as the terminal result; otherwise the iterator
opens the next file of the group and calls the reader again, and if that
first call on the fresh file yields End, next() reports Error rather than
End. -/
theorem claim_C1 (openOk : Nat → Bool) (d : NotifIterData)
    (hcur : d.ds_file = [])
    (hidx : d.ds_file_info_index < d.ds_file_infos.length) :
    (d.ds_file_info_index + 1 = d.ds_file_infos.length →
      (ctf_fs_iterator_next openOk d).1 = NextStatus.end_) ∧
    (d.ds_file_info_index + 1 ≠ d.ds_file_infos.length →
      openOk (d.ds_file_info_index + 1) = true →
      (ctf_fs_iterator_next openOk d).1 ≠ NextStatus.end_ ∧
      (d.ds_file_infos.getD (d.ds_file_info_index + 1) [] = [] →
        (ctf_fs_iterator_next openOk d).1 = NextStatus.error) ∧
      (∀ n rest,
        d.ds_file_infos.getD (d.ds_file_info_index + 1) [] = ReaderOut.notif n :: rest →
        (ctf_fs_iterator_next openOk d).1 = NextStatus.notif n)) := by
  have hnext : ctf_fs_ds_file_next d.ds_file = (NextStatus.end_, []) := by
    rw [hcur]
    rfl
  constructor
  · intro hlen
    simp only [ctf_fs_iterator_next, hnext]
    rw [if_pos hlen]
  · intro hlen hopen
    have hopen2 : ¬ openOk (d.ds_file_info_index + 1) = false := by simp [hopen]
    refine ⟨?_, ?_, ?_⟩
    · rcases hget : d.ds_file_infos.getD (d.ds_file_info_index + 1) [] with _ | ⟨ro, rest⟩
      · simp only [ctf_fs_iterator_next, hnext]
        rw [if_neg hlen, if_neg hopen2, hget]
        simp [ctf_fs_ds_file_next]
      · simp only [ctf_fs_iterator_next, hnext]
        rw [if_neg hlen, if_neg hopen2, hget]
        cases ro <;> simp [ctf_fs_ds_file_next]
    · intro hget
      simp only [ctf_fs_iterator_next, hnext]
      rw [if_neg hlen, if_neg hopen2, hget]
      simp [ctf_fs_ds_file_next]
    · intro n rest hget
      simp only [ctf_fs_iterator_next, hnext]
      rw [if_neg hlen, if_neg hopen2, hget]
      simp [ctf_fs_ds_file_next]

theorem claim_C1_witness :
    (NotifIterData.mk [[ReaderOut.notif 3]] 0 []).ds_file = [] ∧
    (0 : Nat) < 1 ∧
    (ctf_fs_iterator_next (fun _ => true) (NotifIterData.mk [[ReaderOut.notif 3]] 0 [])).1 =
      NextStatus.end_ :=
  ⟨rfl, by decide,
    (claim_C1 (fun _ => true) (NotifIterData.mk [[ReaderOut.notif 3]] 0 [])
      rfl (by decide)).1 rfl⟩

theorem updateFirstMatch_getElem (p : DsFileGroup → Bool) (f : DsFileGroup → DsFileGroup)
    (l l2 : List DsFileGroup) (h : updateFirstMatch p f l = some l2) (i : Nat) :
    l2[i]? = l[i]? ∨
    ∃ g, l[i]? = some g ∧ p g = true ∧ l2[i]? = some (f g) := by
  induction l generalizing l2 i with
  | nil => simp [updateFirstMatch] at h
  | cons g gs ih =>
    by_cases hp : p g
    · simp only [updateFirstMatch, if_pos hp] at h
      obtain rfl := (Option.some.inj h).symm
      cases i with
      | zero => exact Or.inr ⟨g, by simp, hp, by simp⟩
      | succ j => exact Or.inl (by simp)
    · simp only [updateFirstMatch, if_neg hp] at h
      rcases Option.map_eq_some'.mp h with ⟨gs2, hgs2, rfl⟩
      cases i with
      | zero => exact Or.inl (by simp)
      | succ j =>
        rw [List.getElem?_cons_succ, List.getElem?_cons_succ]
        exact ih gs2 hgs2 j

theorem add_ds_file_preserves_sentinel_group (tr : CtfFsTrace) (path : String)
    (hdr : Option PacketHeader) (ctx : Option PacketContext) (tr2 : CtfFsTrace)
    (hadd : add_ds_file_to_ds_file_group tr path hdr ctx = some tr2)
    (i : Nat) (g : DsFileGroup) (hg : tr.ds_file_groups[i]? = some g)
    (hid : g.stream_id = minusOneULL) :
    tr2.ds_file_groups[i]? = some g := by
  simp only [add_ds_file_to_ds_file_group] at hadd
  split at hadd
  · exact Option.noConfusion hadd
  · rename_i sc hsc
    by_cases hbeg : get_packet_context_timestamp_begin_ns ctx = minusOneULL
    · simp only [hbeg, eq_self_iff_true, if_true, Option.some.injEq] at hadd
      subst hadd
      exact getElem?_append_left_of_some _ _ _ _ hg
    · by_cases hiid : get_packet_header_stream_instance_id hdr = minusOneULL
      · simp only [hbeg, hiid, eq_self_iff_true, if_true, if_false, iff_false,
          Option.some.injEq] at hadd
        subst hadd
        exact getElem?_append_left_of_some _ _ _ _ hg
      · simp only [hbeg, hiid, if_false, iff_false] at hadd
        split at hadd
        · rename_i gs hupd
          simp only [Option.some.injEq] at hadd
          subst hadd
          rcases updateFirstMatch_getElem _ _ _ _ hupd i with h1 | ⟨g2, hg2, hp, _⟩
          · rw [h1]
            exact hg
          · obtain rfl := Option.some.inj (hg2.symm.trans hg)
            simp only [Bool.and_eq_true, decide_eq_true_eq] at hp
            have hp3 := hp.2
            rw [hid] at hp3
            exact absurd hp3.symm hiid
        · simp only [Option.some.injEq] at hadd
          subst hadd
          exact getElem?_append_left_of_some _ _ _ _ hg

/-- Claim C3: for every stream file whose first packet's timestamp_begin is
absent (no begin_ns), the grouper treats its instance_id as absent and places
the file in a fresh singleton group of its own, never sharing a group with
any other file (later insertions leave that group untouched), even when the
packet header does carry a stream_instance_id. -/
theorem claim_C3 :
    (∀ (tr : CtfFsTrace) (path : String) (hdr : Option PacketHeader)
        (ctx : Option PacketContext) (tr2 : CtfFsTrace),
      get_packet_context_timestamp_begin_ns ctx = minusOneULL →
      add_ds_file_to_ds_file_group tr path hdr ctx = some tr2 →
      ∃ sc, stream_class_from_packet_header tr.stream_classes hdr = some sc ∧
        tr2.ds_file_groups = tr.ds_file_groups ++
          [{ stream_class := sc, stream_id := minusOneULL,
             ds_file_infos := [{ path := path, begin_ns := minusOneULL }] }]) ∧
    (∀ (i : Nat) (g : DsFileGroup) (fs : List DsFileInput) (tr tr2 : CtfFsTrace),
      tr.ds_file_groups[i]? = some g → g.stream_id = minusOneULL →
      add_ds_files tr fs = some tr2 → tr2.ds_file_groups[i]? = some g) := by
  constructor
  · intro tr path hdr ctx tr2 hbeg hadd
    simp only [add_ds_file_to_ds_file_group] at hadd
    split at hadd
    · exact Option.noConfusion hadd
    · rename_i sc hsc
      simp only [hbeg, eq_self_iff_true, if_true, Option.some.injEq] at hadd
      subst hadd
      refine ⟨sc, hsc, ?_⟩
      simp [ds_file_group_add, ctf_fs_ds_file_group_create,
        ctf_fs_ds_file_group_add_ds_file_info, ds_file_info_insert]
  · intro i g fs
    induction fs with
    | nil =>
      intro tr tr2 hg hid h2
      simp only [add_ds_files] at h2
      obtain rfl := Option.some.inj h2
      exact hg
    | cons f fs ih =>
      intro tr tr2 hg hid h2
      simp only [add_ds_files] at h2
      split at h2
      · exact Option.noConfusion h2
      · rename_i tr3 hstep
        exact ih tr3 tr2
          (add_ds_file_preserves_sentinel_group tr f.path f.header f.context tr3 hstep i g hg hid)
          hid h2

theorem claim_C3_witness :
    get_packet_context_timestamp_begin_ns none = minusOneULL ∧
    (∃ sc,
      stream_class_from_packet_header [StreamClassMeta.mk 0]
        (some (PacketHeader.mk (some (some 0)) (some (some 7)))) = some sc ∧
      (CtfFsTrace.mk [StreamClassMeta.mk 0]
          [DsFileGroup.mk (StreamClassMeta.mk 0) minusOneULL
            [DsFileInfo.mk "a" minusOneULL]]).ds_file_groups =
        (CtfFsTrace.mk [StreamClassMeta.mk 0] []).ds_file_groups ++
          [{ stream_class := sc, stream_id := minusOneULL,
             ds_file_infos := [{ path := "a", begin_ns := minusOneULL }] }]) ∧
    (CtfFsTrace.mk [StreamClassMeta.mk 0]
        [DsFileGroup.mk (StreamClassMeta.mk 0) minusOneULL [DsFileInfo.mk "a" minusOneULL],
         DsFileGroup.mk (StreamClassMeta.mk 0) 7 [DsFileInfo.mk "b" 5]]).ds_file_groups[(0 : Nat)]? =
      some (DsFileGroup.mk (StreamClassMeta.mk 0) minusOneULL [DsFileInfo.mk "a" minusOneULL]) :=
  ⟨by decide,
    claim_C3.1 (CtfFsTrace.mk [StreamClassMeta.mk 0] []) "a"
      (some (PacketHeader.mk (some (some 0)) (some (some 7)))) none
      (CtfFsTrace.mk [StreamClassMeta.mk 0]
        [DsFileGroup.mk (StreamClassMeta.mk 0) minusOneULL [DsFileInfo.mk "a" minusOneULL]])
      (by decide) (by decide),
    claim_C3.2 0 (DsFileGroup.mk (StreamClassMeta.mk 0) minusOneULL [DsFileInfo.mk "a" minusOneULL])
      [DsFileInput.mk "b" (some (PacketHeader.mk (some (some 0)) (some (some 7))))
        (some (PacketContext.mk (some (TimestampBeginField.mk true (some 5) (some 5)))))]
      (CtfFsTrace.mk [StreamClassMeta.mk 0]
        [DsFileGroup.mk (StreamClassMeta.mk 0) minusOneULL [DsFileInfo.mk "a" minusOneULL]])
      (CtfFsTrace.mk [StreamClassMeta.mk 0]
        [DsFileGroup.mk (StreamClassMeta.mk 0) minusOneULL [DsFileInfo.mk "a" minusOneULL],
         DsFileGroup.mk (StreamClassMeta.mk 0) 7 [DsFileInfo.mk "b" 5]])
      (by decide) (by decide) (by decide)⟩

theorem countP_append_single (l : List CopyOp) (op c : CopyOp) :
    (l ++ [op]).countP (fun x => decide (x = c)) =
      (l.countP fun x => decide (x = c)) + (if op = c then 1 else 0) := by
  rw [List.countP_append]
  by_cases h : op = c <;> simp [List.countP_cons, h]

theorem scLookup_scAddEventClass_same (m : List (Nat × List Nat)) (sc ec : Nat) :
    scLookup (scAddEventClass m sc ec) sc = (scLookup m sc).map (fun v => ec :: v) := by
  induction m with
  | nil => simp [scLookup, scAddEventClass]
  | cons kv rest ih =>
    by_cases hk : kv.1 = sc
    · simp [scLookup, scAddEventClass, hk]
    · simp [scLookup, scAddEventClass, hk, ih]

theorem scLookup_scAddEventClass_ne (m : List (Nat × List Nat)) (sc ec sc2 : Nat)
    (h : sc2 ≠ sc) :
    scLookup (scAddEventClass m sc ec) sc2 = scLookup m sc2 := by
  induction m with
  | nil => simp [scLookup, scAddEventClass]
  | cons kv rest ih =>
    by_cases hk : kv.1 = sc
    · simp [scLookup, scAddEventClass, hk, Ne.symm h]
    · by_cases hk2 : kv.1 = sc2 <;> simp [scLookup, scAddEventClass, hk, hk2, h, ih]

theorem get_writer_inv (wc : WriterComponent) (trace : Nat) (h : SinkCopyInv wc) :
    SinkCopyInv (get_writer wc trace) := by
  unfold get_writer
  by_cases hmem : trace ∈ wc.trace_map
  · rw [if_pos hmem]
    exact h
  · rw [if_neg hmem]
    obtain ⟨h1, h2, h3, h4⟩ := h
    refine ⟨?_, ?_, ?_, ?_⟩
    · intro t
      simp only [insert_new_writer, countP_append_single, h1]
      by_cases ht : t = trace
      · subst ht
        simp [hmem]
      · simp [ht, Ne.symm ht]
    · intro sc
      simp only [insert_new_writer, countP_append_single, h2]
      simp
    · intro s
      simp only [insert_new_writer, countP_append_single, h3]
      simp
    · intro sc ec
      simp only [insert_new_writer, countP_append_single, h4]
      simp

theorem insert_new_stream_class_inv (wc : WriterComponent) (sc : Nat)
    (h : SinkCopyInv wc) (hnone : scLookup wc.stream_class_map sc = none) :
    SinkCopyInv (insert_new_stream_class wc sc) := by
  obtain ⟨h1, h2, h3, h4⟩ := h
  refine ⟨?_, ?_, ?_, ?_⟩
  · intro t
    simp only [insert_new_stream_class, countP_append_single, h1]
    simp
  · intro sc2
    simp only [insert_new_stream_class, countP_append_single, h2]
    by_cases hsc : sc2 = sc
    · subst hsc
      simp [scLookup, hnone]
    · simp [scLookup, hsc, Ne.symm hsc]
  · intro s
    simp only [insert_new_stream_class, countP_append_single, h3]
    simp
  · intro sc2 ec
    simp only [insert_new_stream_class, countP_append_single, h4]
    by_cases hsc : sc2 = sc
    · subst hsc
      simp [scLookup, hnone]
    · simp [scLookup, hsc, Ne.symm hsc]

theorem insert_new_stream_inv (wc : WriterComponent) (sc stream : Nat)
    (h : SinkCopyInv wc) (hs : stream ∉ wc.stream_map) :
    SinkCopyInv (insert_new_stream wc sc stream) := by
  unfold insert_new_stream
  rcases hlook : scLookup wc.stream_class_map sc with _ | ecs
  · have h2 := insert_new_stream_class_inv wc sc h hlook
    obtain ⟨h1, h2a, h3, h4⟩ := h2
    refine ⟨?_, ?_, ?_, ?_⟩
    · intro t
      simp only [countP_append_single, h1]
      simp [insert_new_stream_class]
    · intro sc2
      simp only [countP_append_single, h2a]
      simp
    · intro s
      simp only [countP_append_single, h3]
      by_cases hst : s = stream
      · subst hst
        simp [insert_new_stream_class, hs]
      · simp [insert_new_stream_class, hst, Ne.symm hst]
    · intro sc2 ec
      simp only [countP_append_single, h4]
      simp
  · obtain ⟨h1, h2a, h3, h4⟩ := h
    refine ⟨?_, ?_, ?_, ?_⟩
    · intro t
      simp only [countP_append_single, h1]
      simp
    · intro sc2
      simp only [countP_append_single, h2a]
      simp
    · intro s
      simp only [countP_append_single, h3]
      by_cases hst : s = stream
      · subst hst
        simp [hs]
      · simp [hst, Ne.symm hst]
    · intro sc2 ec
      simp only [countP_append_single, h4]
      simp

theorem get_writer_stream_inv (wc : WriterComponent) (trace sc stream : Nat)
    (h : SinkCopyInv wc) : SinkCopyInv (get_writer_stream wc trace sc stream) := by
  unfold get_writer_stream
  have h1 := get_writer_inv wc trace h
  by_cases hmem : stream ∈ (get_writer wc trace).stream_map
  · rw [if_pos hmem]
    exact h1
  · rw [if_neg hmem]
    exact insert_new_stream_inv _ sc stream h1 hmem

theorem writer_output_event_inv (wc : WriterComponent) (sc stream ec : Nat)
    (h : SinkCopyInv wc) : SinkCopyInv (writer_output_event wc sc stream ec) := by
  unfold writer_output_event
  split
  · split
    · exact h
    · rename_i ecs hlook
      split
      · exact h
      · rename_i hec
        obtain ⟨h1, h2, h3, h4⟩ := h
        refine ⟨?_, ?_, ?_, ?_⟩
        · intro t
          simp only [countP_append_single, h1]
          simp
        · intro sc2
          simp only [countP_append_single, h2]
          by_cases hsc : sc2 = sc
          · subst hsc
            simp [scLookup_scAddEventClass_same, hlook]
          · simp [scLookup_scAddEventClass_ne _ _ _ _ hsc]
        · intro s
          simp only [countP_append_single, h3]
          simp
        · intro sc2 ec2
          simp only [countP_append_single, h4]
          by_cases hsc : sc2 = sc
          · subst hsc
            rw [scLookup_scAddEventClass_same, hlook]
            by_cases hec2 : ec2 = ec
            · subst hec2
              simp [hlook, hec]
            · simp [hlook, hec2, List.mem_cons, Ne.symm hec2]
          · rw [scLookup_scAddEventClass_ne _ _ _ _ hsc]
            simp [hsc, Ne.symm hsc]
  · exact h

theorem sink_consume_inv (wc : WriterComponent) (n : SinkNotif) (h : SinkCopyInv wc) :
    SinkCopyInv (sink_consume wc n) := by
  cases n with
  | packetBegin trace sc stream => exact get_writer_stream_inv wc trace sc stream h
  | event sc stream ec => exact writer_output_event_inv wc sc stream ec h
  | packetEnd stream => exact h

theorem sink_run_inv (notifs : List SinkNotif) : SinkCopyInv (sink_run notifs) := by
  have hstart : SinkCopyInv emptyWriterComponent := by
    refine ⟨?_, ?_, ?_, ?_⟩ <;> intros <;> simp [emptyWriterComponent, scLookup]
  unfold sink_run
  induction notifs using List.reverseRecOn with
  | nil => exact hstart
  | append_singleton ns n ih =>
    rw [List.foldl_append]
    exact sink_consume_inv _ n ih

/-- Claim C4: for every sequence of notifications consumed by the sink, at
most one output StreamClass is created per input StreamClass identity, at
most one output Stream per input Stream identity, and at most one output
EventClass per (input StreamClass, input EventClass id): a second
observation of the same input identity reuses the stored mapping instead of
copying again. -/
theorem claim_C4 (notifs : List SinkNotif) :
    (∀ sc, (sink_run notifs).copies.countP
      (fun c => decide (c = CopyOp.copyStreamClass sc)) ≤ 1) ∧
    (∀ s, (sink_run notifs).copies.countP
      (fun c => decide (c = CopyOp.copyStream s)) ≤ 1) ∧
    (∀ sc ec, (sink_run notifs).copies.countP
      (fun c => decide (c = CopyOp.copyEventClass sc ec)) ≤ 1) := by
  obtain ⟨h1, h2, h3, h4⟩ := sink_run_inv notifs
  refine ⟨?_, ?_, ?_⟩
  · intro sc
    rw [h2 sc]
    split <;> omega
  · intro s
    rw [h3 s]
    split <;> omega
  · intro sc ec
    rw [h4 sc ec]
    split
    · omega
    · split <;> omega

/-- Claim C5 (counterexample): the claim states that a first packet header
with no stream_id field resolves to the single StreamClass when the trace
has exactly one; in the code a present header whose stream_id field is
absent is rejected (NULL) even then -- the single-class fallback is reached
only when the whole header is absent or the field's value cannot be read. -/
theorem claim_C5_counterexample :
    ([StreamClassMeta.mk 0] : List StreamClassMeta).length = 1 ∧
    stream_class_from_packet_header [StreamClassMeta.mk 0]
      (some (PacketHeader.mk none none)) = none :=
  ⟨rfl, rfl⟩

/-- Claim C5 (amended): for every stream file whose first packet header is
present but has no stream_id field, resolution fails and the file is
rejected regardless of the number of StreamClasses (even exactly one); when
the header is absent, or the stream_id value cannot be read, the file
resolves to the trace's first StreamClass whenever the trace has at least
one StreamClass -- even when it has more than one -- and fails only when
the trace has none. -/
theorem claim_C5_amended (sc0 : StreamClassMeta) (rest : List StreamClassMeta)
    (instF : Option (Option Nat)) :
    (∀ (groups : List DsFileGroup) (path : String) (ctx : Option PacketContext),
      add_ds_file_to_ds_file_group (CtfFsTrace.mk (sc0 :: rest) groups) path
        (some (PacketHeader.mk none instF)) ctx = none) ∧
    stream_class_from_packet_header (sc0 :: rest) (some (PacketHeader.mk none instF)) =
      none ∧
    stream_class_from_packet_header (sc0 :: rest)
      (some (PacketHeader.mk (some none) instF)) = some sc0 ∧
    stream_class_from_packet_header (sc0 :: rest) none = some sc0 ∧
    stream_class_from_packet_header [] (some (PacketHeader.mk (some none) instF)) = none ∧
    stream_class_from_packet_header [] none = none :=
  ⟨fun _ _ _ => rfl, rfl, rfl, rfl, rfl, rfl⟩

/-- Claim C10: the value 2^64-1 is used in-band as the 'absent' sentinel
during stream-file inspection: a file whose packet header's
stream_instance_id field actually equals 2^64-1, or whose timestamp_begin
converts to -1 nanoseconds from epoch, is indistinguishable from a file
lacking those fields, and is therefore placed in a fresh singleton group
instead of being grouped with files sharing its instance id. -/
theorem claim_C10 :
    (∀ sid : Option (Option Nat),
      get_packet_header_stream_instance_id
          (some (PacketHeader.mk sid (some (some minusOneULL)))) =
        get_packet_header_stream_instance_id none) ∧
    get_packet_context_timestamp_begin_ns
        (some (PacketContext.mk (some (TimestampBeginField.mk true (some 0) (some (-1)))))) =
      get_packet_context_timestamp_begin_ns none ∧
    add_ds_files (CtfFsTrace.mk [StreamClassMeta.mk 0] [])
        [DsFileInput.mk "a" (some (PacketHeader.mk (some (some 0)) (some (some minusOneULL))))
           (some (PacketContext.mk (some (TimestampBeginField.mk true (some 5) (some 5))))),
         DsFileInput.mk "b" (some (PacketHeader.mk (some (some 0)) (some (some minusOneULL))))
           (some (PacketContext.mk (some (TimestampBeginField.mk true (some 5) (some 5)))))] =
      some (CtfFsTrace.mk [StreamClassMeta.mk 0]
        [DsFileGroup.mk (StreamClassMeta.mk 0) minusOneULL [DsFileInfo.mk "a" 5],
         DsFileGroup.mk (StreamClassMeta.mk 0) minusOneULL [DsFileInfo.mk "b" 5]]) ∧
    add_ds_file_to_ds_file_group (CtfFsTrace.mk [StreamClassMeta.mk 0] []) "c"
        (some (PacketHeader.mk (some (some 0)) (some (some 7))))
        (some (PacketContext.mk (some (TimestampBeginField.mk true (some 0) (some (-1)))))) =
      some (CtfFsTrace.mk [StreamClassMeta.mk 0]
        [DsFileGroup.mk (StreamClassMeta.mk 0) minusOneULL [DsFileInfo.mk "c" minusOneULL]]) :=
  ⟨fun _ => rfl, by decide, by decide, by decide⟩

theorem sizeOf_children_lt (n : String) (cs : List Entry) :
    sizeOf cs < sizeOf (Entry.dir n cs) := by
  have h := Entry.dir.sizeOf_spec n cs
  omega

theorem sizeOf_head_lt (c : Entry) (cs : List Entry) : sizeOf c < sizeOf (c :: cs) := by
  have h := List.cons.sizeOf_spec c cs
  omega

theorem sizeOf_tail_lt (c : Entry) (cs : List Entry) : sizeOf cs < sizeOf (c :: cs) := by
  have h := List.cons.sizeOf_spec c cs
  omega

theorem uniqueNames_dir_nodup (n : String) (cs : List Entry)
    (h : uniqueNames (Entry.dir n cs) = true) : (cs.map Entry.name).Nodup := by
  simp only [uniqueNames, Bool.and_eq_true, decide_eq_true_eq] at h
  exact h.1

theorem uniqueNames_dir_children (n : String) (cs : List Entry)
    (h : uniqueNames (Entry.dir n cs) = true) : uniqueNamesList cs = true := by
  simp only [uniqueNames, Bool.and_eq_true] at h
  exact h.2

theorem uniqueNamesList_head (c : Entry) (cs : List Entry)
    (h : uniqueNamesList (c :: cs) = true) : uniqueNames c = true := by
  simp only [uniqueNamesList, Bool.and_eq_true] at h
  exact h.1

theorem uniqueNamesList_tail (c : Entry) (cs : List Entry)
    (h : uniqueNamesList (c :: cs) = true) : uniqueNamesList cs = true := by
  simp only [uniqueNamesList, Bool.and_eq_true] at h
  exact h.2

theorem traceAt_file (m : String) (p : List String) : traceAt (Entry.file m) p = false := by
  cases p <;> rfl

theorem traceAt_nil (e : Entry) : traceAt e [] = path_is_ctf_trace e := by
  cases e <;> rfl

theorem traceAt_dir_cons_some (n m : String) (cs : List Entry) (p : List String) (c : Entry)
    (h : cs.find? (fun x => decide (x.name = m)) = some c) :
    traceAt (Entry.dir n cs) (m :: p) = traceAt c p := by
  simp [traceAt, subtree, h]

theorem traceAt_dir_cons_none (n m : String) (cs : List Entry) (p : List String)
    (h : cs.find? (fun x => decide (x.name = m)) = none) :
    traceAt (Entry.dir n cs) (m :: p) = false := by
  simp [traceAt, subtree, h]

theorem find?_name_of_mem (cs : List Entry) (c : Entry)
    (hnd : (cs.map Entry.name).Nodup) (hc : c ∈ cs) :
    cs.find? (fun x => decide (x.name = c.name)) = some c := by
  induction cs with
  | nil => cases hc
  | cons d rest ih =>
    rw [List.map_cons] at hnd
    have hnd2 := List.nodup_cons.mp hnd
    rcases List.mem_cons.mp hc with rfl | hc2
    · rw [List.find?_cons_of_pos]
      simp
    · have hne : ¬ (d.name = c.name) := by
        intro he
        apply hnd2.1
        rw [he]
        exact List.mem_map_of_mem Entry.name hc2
      rw [List.find?_cons_of_neg _ (by simpa using hne)]
      exact ih hnd2.2 hc2

theorem find?_name_mem (cs : List Entry) (m : String) (c : Entry)
    (h : cs.find? (fun x => decide (x.name = m)) = some c) : c ∈ cs ∧ c.name = m := by
  refine ⟨List.mem_of_find?_eq_some h, ?_⟩
  have h2 := List.find?_some h
  simpa using h2

theorem find_ctf_traces_characterize (N : Nat) :
    (∀ e : Entry, sizeOf e ≤ N → uniqueNames e = true →
      ∀ (pre : List String) (acc res : List (List String)),
        find_ctf_traces realpath_id acc pre e = some res →
        ∀ q, q ∈ res ↔ (q ∈ acc ∨
          ∃ s, q = pre ++ s ∧ traceAt e s = true ∧
            ∀ k, k < s.length → traceAt e (s.take k) = false)) ∧
    (∀ cs : List Entry, sizeOf cs ≤ N → uniqueNamesList cs = true →
      ∀ (pre : List String) (acc res : List (List String)),
        find_ctf_traces_children realpath_id acc pre cs = some res →
        ∀ q, q ∈ res ↔ (q ∈ acc ∨
          ∃ c, c ∈ cs ∧ ∃ s, q = pre ++ (c.name :: s) ∧ traceAt c s = true ∧
            ∀ k, k < s.length → traceAt c (s.take k) = false)) := by
  induction N using Nat.strong_induction_on with
  | _ N ih =>
    constructor
    · intro e hsize hu pre acc res hfind q
      cases e with
      | file nm =>
        simp only [find_ctf_traces] at hfind
        obtain rfl := Option.some.inj hfind
        simp [traceAt_file]
      | dir nm cs =>
        cases htr : isTraceChildren cs with
        | true =>
          simp only [find_ctf_traces, htr, if_true, add_trace_path, realpath_id] at hfind
          by_cases hpre : pre = []
          · rw [if_pos hpre] at hfind
            exact Option.noConfusion hfind
          · rw [if_neg hpre] at hfind
            obtain rfl := (Option.some.inj hfind).symm
            simp only [List.mem_cons]
            constructor
            · rintro (rfl | hq)
              · refine Or.inr ⟨[], by simp, ?_, by simp⟩
                rw [traceAt_nil]
                exact htr
              · exact Or.inl hq
            · rintro (hq | ⟨s, rfl, hts, hmin⟩)
              · exact Or.inr hq
              · cases s with
                | nil => simp
                | cons m s2 =>
                  exfalso
                  have h0 := hmin 0 (by simp)
                  rw [List.take_zero, traceAt_nil] at h0
                  rw [show path_is_ctf_trace (Entry.dir nm cs) = isTraceChildren cs from rfl,
                    htr] at h0
                  exact Bool.noConfusion h0
        | false =>
          have hfind2 : find_ctf_traces_children realpath_id acc pre cs = some res := by
            simpa [find_ctf_traces, htr] using hfind
          have hnd := uniqueNames_dir_nodup nm cs hu
          have hQ := (ih (sizeOf cs) (Nat.lt_of_lt_of_le (sizeOf_children_lt nm cs) hsize)).2
            cs (Nat.le_refl _) (uniqueNames_dir_children nm cs hu) pre acc res hfind2 q
          rw [hQ]
          refine or_congr Iff.rfl ⟨?_, ?_⟩
          · rintro ⟨c, hcmem, s, rfl, hts, hmin⟩
            have hfc := find?_name_of_mem cs c hnd hcmem
            refine ⟨c.name :: s, rfl, ?_, ?_⟩
            · rw [traceAt_dir_cons_some nm c.name cs s c hfc]
              exact hts
            · intro k hk
              cases k with
              | zero =>
                rw [List.take_zero, traceAt_nil]
                rw [show path_is_ctf_trace (Entry.dir nm cs) = isTraceChildren cs from rfl]
                exact htr
              | succ j =>
                rw [List.take_succ_cons, traceAt_dir_cons_some nm c.name cs _ c hfc]
                refine hmin j ?_
                simp only [List.length_cons] at hk
                omega
          · rintro ⟨s0, rfl, hts, hmin⟩
            cases s0 with
            | nil =>
              rw [traceAt_nil] at hts
              rw [show path_is_ctf_trace (Entry.dir nm cs) = isTraceChildren cs from rfl,
                htr] at hts
              exact Bool.noConfusion hts
            | cons m s =>
              rcases hfc : cs.find? (fun x => decide (x.name = m)) with _ | c
              · rw [traceAt_dir_cons_none nm m cs s hfc] at hts
                exact Bool.noConfusion hts
              · rw [traceAt_dir_cons_some nm m cs s c hfc] at hts
                obtain ⟨hcmem, hcname⟩ := find?_name_mem cs m c hfc
                refine ⟨c, hcmem, s, by rw [hcname], hts, ?_⟩
                intro j hj
                have h2 := hmin (j + 1) (by simp only [List.length_cons]; omega)
                rw [List.take_succ_cons, traceAt_dir_cons_some nm m cs _ c hfc] at h2
                exact h2
    · intro cs hsize hu pre acc res hfind q
      cases cs with
      | nil =>
        simp only [find_ctf_traces_children] at hfind
        obtain rfl := Option.some.inj hfind
        simp
      | cons c cs2 =>
        simp only [find_ctf_traces_children] at hfind
        split at hfind
        · exact Option.noConfusion hfind
        · rename_i acc2 hfc
          have hP := (ih (sizeOf c) (Nat.lt_of_lt_of_le (sizeOf_head_lt c cs2) hsize)).1
            c (Nat.le_refl _) (uniqueNamesList_head c cs2 hu) (pre ++ [c.name]) acc acc2 hfc
          have hQ := (ih (sizeOf cs2) (Nat.lt_of_lt_of_le (sizeOf_tail_lt c cs2) hsize)).2
            cs2 (Nat.le_refl _) (uniqueNamesList_tail c cs2 hu) pre acc2 res hfind q
          rw [hQ, hP q]
          constructor
          · rintro ((hq | ⟨s, rfl, hts, hmin⟩) | ⟨c2, hc2, s, rfl, hts, hmin⟩)
            · exact Or.inl hq
            · exact Or.inr ⟨c, List.mem_cons_self c cs2, s, by simp, hts, hmin⟩
            · exact Or.inr ⟨c2, List.mem_cons_of_mem c hc2, s, rfl, hts, hmin⟩
          · rintro (hq | ⟨c2, hc2, s, rfl, hts, hmin⟩)
            · exact Or.inl (Or.inl hq)
            · rcases List.mem_cons.mp hc2 with rfl | hc2b
              · exact Or.inl (Or.inr ⟨s, by simp, hts, hmin⟩)
              · exact Or.inr ⟨c2, hc2b, s, rfl, hts, hmin⟩

theorem find_ctf_traces_id_isSome (N : Nat) :
    (∀ e : Entry, sizeOf e ≤ N → ∀ (pre : List String) (acc : List (List String)),
      pre ≠ [] → (find_ctf_traces realpath_id acc pre e).isSome = true) ∧
    (∀ cs : List Entry, sizeOf cs ≤ N → ∀ (pre : List String) (acc : List (List String)),
      (find_ctf_traces_children realpath_id acc pre cs).isSome = true) := by
  induction N using Nat.strong_induction_on with
  | _ N ih =>
    constructor
    · intro e hsize pre acc hpre
      cases e with
      | file nm => simp [find_ctf_traces]
      | dir nm cs =>
        cases htr : isTraceChildren cs with
        | true => simp [find_ctf_traces, htr, add_trace_path, realpath_id, hpre]
        | false =>
          have h2 := (ih (sizeOf cs) (Nat.lt_of_lt_of_le (sizeOf_children_lt nm cs) hsize)).2
            cs (Nat.le_refl _) pre acc
          simpa [find_ctf_traces, htr] using h2
    · intro cs hsize pre acc
      cases cs with
      | nil => simp [find_ctf_traces_children]
      | cons c cs2 =>
        have hP := (ih (sizeOf c) (Nat.lt_of_lt_of_le (sizeOf_head_lt c cs2) hsize)).1
          c (Nat.le_refl _) (pre ++ [c.name]) acc (by simp)
        rcases hsome : find_ctf_traces realpath_id acc (pre ++ [c.name]) c with _ | acc2
        · rw [hsome] at hP
          exact Bool.noConfusion hP
        · simp only [find_ctf_traces_children, hsome]
          exact (ih (sizeOf cs2) (Nat.lt_of_lt_of_le (sizeOf_tail_lt c cs2) hsize)).2
            cs2 (Nat.le_refl _) pre acc2

/-- Claim C6: for every directory tree, discovery returns exactly the set of
directories that contain a regular file named metadata and are not nested
inside another such directory: a directory identified as a CTF trace is
never recursed into, so a trace nested inside another trace directory is not
reported.  (The walk is run from a non-root starting path with an identity
realpath; sibling basenames are unique as on a real filesystem.) -/
theorem claim_C6 (e : Entry) (r : String) (hu : uniqueNames e = true) :
    (∃ res, find_ctf_traces realpath_id [] [r] e = some res) ∧
    ∀ res, find_ctf_traces realpath_id [] [r] e = some res →
      ∀ q, q ∈ res ↔ ∃ s, q = r :: s ∧ traceAt e s = true ∧
        ∀ k, k < s.length → traceAt e (s.take k) = false := by
  constructor
  · have h := (find_ctf_traces_id_isSome (sizeOf e)).1 e (Nat.le_refl _) [r] [] (by simp)
    exact Option.isSome_iff_exists.mp h
  · intro res hres q
    have h := (find_ctf_traces_characterize (sizeOf e)).1 e (Nat.le_refl _) hu [r] [] res hres q
    rw [h]
    simp

theorem claim_C6_witness :
    uniqueNames (Entry.dir "root"
      [Entry.dir "outer" [Entry.file "metadata", Entry.dir "inner" [Entry.file "metadata"]]]) =
      true ∧
    find_ctf_traces realpath_id [] ["R"]
      (Entry.dir "root"
        [Entry.dir "outer" [Entry.file "metadata", Entry.dir "inner" [Entry.file "metadata"]]]) =
      some [["R", "outer"]] ∧
    (∀ res, find_ctf_traces realpath_id [] ["R"]
        (Entry.dir "root"
          [Entry.dir "outer"
            [Entry.file "metadata", Entry.dir "inner" [Entry.file "metadata"]]]) = some res →
      ∀ q, q ∈ res ↔ ∃ s, q = "R" :: s ∧
        traceAt (Entry.dir "root"
          [Entry.dir "outer"
            [Entry.file "metadata", Entry.dir "inner" [Entry.file "metadata"]]]) s = true ∧
        ∀ k, k < s.length →
          traceAt (Entry.dir "root"
            [Entry.dir "outer"
              [Entry.file "metadata", Entry.dir "inner" [Entry.file "metadata"]]])
            (s.take k) = false) :=
  ⟨by decide, by decide,
    (claim_C6 (Entry.dir "root"
      [Entry.dir "outer" [Entry.file "metadata", Entry.dir "inner" [Entry.file "metadata"]]])
      "R" (by decide)).2⟩

/-- Claim C8 (counterexample): the claim states that a root path
canonicalizing to the filesystem root '/' refuses initialization; in the
code the root-equals-'/' check lives in add_trace_path and fires only when
a discovered trace directory's path canonicalizes to '/'.  A root that
canonicalizes to '/' (realpath oracle maps the start path to the empty
component list) but is not itself a trace directory is recursed into, and
initialization succeeds on the nested trace. -/
theorem claim_C8_counterexample :
    (fun p => if p = ["r"] then (some [] : Option (List String)) else some p) ["r"] =
      some [] ∧
    create_ctf_fs_traces
      (fun p => if p = ["r"] then some [] else some p) ["r"]
      (Entry.dir "r" [Entry.dir "t" [Entry.file "metadata"]]) = true := by
  refine ⟨by decide, by decide⟩

/-- Claim C8 (amended): initialization is refused when the starting path is
itself a CTF trace directory and canonicalizes to the filesystem root '/'
(the check applies to each discovered trace path; a root canonicalizing to
'/' that is not itself a trace directory proceeds to recursive discovery
and may succeed). -/
theorem claim_C8_amended (rp : List String → Option (List String))
    (root : List String) (e : Entry)
    (htrace : path_is_ctf_trace e = true) (hrp : rp root = some []) :
    create_ctf_fs_traces rp root e = false := by
  cases e with
  | file nm => exact Bool.noConfusion htrace
  | dir nm cs =>
    have h2 : isTraceChildren cs = true := htrace
    simp [create_ctf_fs_traces, find_ctf_traces, h2, add_trace_path, hrp]

theorem claim_C8_amended_witness :
    path_is_ctf_trace (Entry.dir "r" [Entry.file "metadata"]) = true ∧
    (fun p => if p = ["r"] then (some [] : Option (List String)) else some p) ["r"] =
      some [] ∧
    create_ctf_fs_traces (fun p => if p = ["r"] then some [] else some p) ["r"]
      (Entry.dir "r" [Entry.file "metadata"]) = false :=
  ⟨by decide, by decide,
    claim_C8_amended (fun p => if p = ["r"] then some [] else some p) ["r"]
      (Entry.dir "r" [Entry.file "metadata"]) (by decide) (by decide)⟩

theorem passAt_established (paths : List (List Char)) (i : Nat) (common c : Char)
    (hc : common ≠ nulChar) (h : passAt paths i common = some c) :
    c = common ∧ ∀ p ∈ paths, p[i]? = some common := by
  induction paths with
  | nil =>
    simp only [passAt] at h
    exact ⟨(Option.some.inj h).symm, by simp⟩
  | cons p rest ih =>
    rcases hp : p[i]? with _ | cp
    · simp [passAt, hp] at h
    · by_cases hne : cp = common
      · subst hne
        simp [passAt, hp, hc] at h
        obtain ⟨rfl, hall⟩ := ih h
        refine ⟨rfl, ?_⟩
        intro q hq
        rcases List.mem_cons.mp hq with rfl | hq2
        · exact hp
        · exact hall q hq2
      · simp [passAt, hp, hc, hne] at h

theorem passAt_agree (paths : List (List Char)) (i : Nat) (c : Char)
    (hnul : ∀ p ∈ paths, nulChar ∉ p)
    (h : passAt paths i nulChar = some c) :
    ∀ p ∈ paths, p[i]? = some c := by
  cases paths with
  | nil => simp
  | cons p rest =>
    rcases hp : p[i]? with _ | cp
    · simp [passAt, hp] at h
    · simp [passAt, hp] at h
      have hcp : cp ≠ nulChar := by
        intro he
        refine hnul p (List.mem_cons_self p rest) ?_
        rw [← he]
        exact List.getElem?_mem hp
      obtain ⟨rfl, hall⟩ := passAt_established rest i cp c hcp h
      intro q hq
      rcases List.mem_cons.mp hq with rfl | hq2
      · exact hp
      · exact hall q hq2

theorem passAt_of_all (paths : List (List Char)) (i : Nat) (ch : Char)
    (hall : ∀ p ∈ paths, p[i]? = some ch) :
    passAt paths i ch = some ch := by
  induction paths with
  | nil => rfl
  | cons p rest ih =>
    have hh := hall p (List.mem_cons_self p rest)
    have ih2 := ih (fun q hq => hall q (List.mem_cons_of_mem p hq))
    by_cases hn : ch = nulChar
    · subst hn
      simp [passAt, hh, ih2]
    · simp [passAt, hh, hn, ih2]

theorem create_trace_names_loop_ge (paths : List (List Char)) (fuel i strip : Nat)
    (h : strip ≤ i) : strip ≤ create_trace_names_loop paths fuel i strip := by
  induction fuel generalizing i strip with
  | zero =>
    exact Nat.le_refl strip
  | succ f ih =>
    rcases hp : passAt paths i nulChar with _ | c
    · simp only [create_trace_names_loop, hp]
      exact Nat.le_refl strip
    · simp only [create_trace_names_loop, hp]
      by_cases hc : c = '/'
      · rw [if_pos hc]
        have h2 := ih (i + 1) (i + 1) (Nat.le_refl _)
        omega
      · rw [if_neg hc]
        exact ih (i + 1) strip (Nat.le_succ_of_le h)

theorem create_trace_names_loop_agree (paths : List (List Char)) (fuel : Nat)
    (hnul : ∀ p ∈ paths, nulChar ∉ p) :
    ∀ (i strip : Nat),
      (∀ j, j < i → ∃ ch, ∀ p ∈ paths, p[j]? = some ch) → strip ≤ i →
      ∀ j, j < create_trace_names_loop paths fuel i strip →
        ∃ ch, ∀ p ∈ paths, p[j]? = some ch := by
  induction fuel with
  | zero =>
    intro i strip hinv hstrip j hj
    simp only [create_trace_names_loop] at hj
    exact hinv j (Nat.lt_of_lt_of_le hj hstrip)
  | succ f ih =>
    intro i strip hinv hstrip j hj
    rcases hp : passAt paths i nulChar with _ | c
    · simp only [create_trace_names_loop, hp] at hj
      exact hinv j (Nat.lt_of_lt_of_le hj hstrip)
    · simp only [create_trace_names_loop, hp] at hj
      have hagree := passAt_agree paths i c hnul hp
      have hinv2 : ∀ j2, j2 < i + 1 → ∃ ch, ∀ p ∈ paths, p[j2]? = some ch := by
        intro j2 hj2
        by_cases hj3 : j2 = i
        · subst hj3
          exact ⟨c, hagree⟩
        · exact hinv j2 (by omega)
      by_cases hc : c = '/'
      · rw [if_pos hc] at hj
        exact ih (i + 1) (i + 1) hinv2 (Nat.le_refl _) j hj
      · rw [if_neg hc] at hj
        exact ih (i + 1) strip hinv2 (by omega) j hj

theorem create_trace_names_loop_slash (paths : List (List Char)) (fuel : Nat)
    (hnul : ∀ p ∈ paths, nulChar ∉ p) :
    ∀ (i strip : Nat),
      (strip = 0 ∨ ∀ p ∈ paths, p[strip - 1]? = some '/') →
      (create_trace_names_loop paths fuel i strip = 0 ∨
        ∀ p ∈ paths, p[create_trace_names_loop paths fuel i strip - 1]? = some '/') := by
  induction fuel with
  | zero =>
    intro i strip hstrip
    simpa only [create_trace_names_loop] using hstrip
  | succ f ih =>
    intro i strip hstrip
    rcases hp : passAt paths i nulChar with _ | c
    · simpa only [create_trace_names_loop, hp] using hstrip
    · simp only [create_trace_names_loop, hp]
      by_cases hc : c = '/'
      · rw [if_pos hc]
        refine ih (i + 1) (i + 1) (Or.inr ?_)
        intro p hp2
        have h2 := passAt_agree paths i c hnul hp p hp2
        rw [hc] at h2
        simpa using h2
      · rw [if_neg hc]
        exact ih (i + 1) strip hstrip

theorem create_trace_names_loop_pos (p0 : List Char) (rest : List (List Char))
    (habs : ∀ p ∈ p0 :: rest, p[0]? = some '/') :
    1 ≤ create_trace_names_loop (p0 :: rest) (p0.length + 1) 0 0 := by
  have h1 : passAt rest 0 '/' = some '/' :=
    passAt_of_all rest 0 '/' (fun p hp => habs p (List.mem_cons_of_mem p0 hp))
  have hpass : passAt (p0 :: rest) 0 nulChar = some '/' := by
    simp only [passAt, habs p0 (List.mem_cons_self p0 rest), if_pos rfl]
    exact h1
  simp only [create_trace_names_loop, hpass, if_true]
  exact create_trace_names_loop_ge (p0 :: rest) p0.length (0 + 1) (0 + 1) (Nat.le_refl _)

/-- Claim C7: for every list of distinct discovered trace paths (canonical
absolute paths not ending in '/': starting with '/', no two consecutive
slashes, no NUL), the derived display names are obtained by stripping the
longest common prefix that ends at a '/' boundary; the resulting names are
pairwise distinct and no name begins with '/'. -/
theorem claim_C7 (p0 : List Char) (rest : List (List Char))
    (habs : ∀ p ∈ p0 :: rest, p[0]? = some '/')
    (hend : ∀ p ∈ p0 :: rest, p[p.length - 1]? ≠ some '/')
    (hdbl : ∀ p ∈ p0 :: rest, ∀ j, j < p.length →
      ¬(p[j]? = some '/' ∧ p[j + 1]? = some '/'))
    (hnul : ∀ p ∈ p0 :: rest, nulChar ∉ p)
    (hdist : (p0 :: rest).Pairwise (fun a b => a ≠ b)) :
    (create_trace_names p0 rest).Pairwise (fun a b => a ≠ b) ∧
    ∀ q ∈ create_trace_names p0 rest, q[0]? ≠ some '/' := by
  have key : ∀ S : Nat, 1 ≤ S →
      (∀ j, j < S → ∃ ch, ∀ p ∈ p0 :: rest, p[j]? = some ch) →
      (∀ p ∈ p0 :: rest, p[S - 1]? = some '/') →
      ((p0 :: rest).map (fun p => p.drop S)).Pairwise (fun a b => a ≠ b) ∧
      (∀ q ∈ (p0 :: rest).map (fun p => p.drop S), q[0]? ≠ some '/') := by
    intro S hpos hagree hslash
    constructor
    · rw [List.pairwise_map]
      refine hdist.imp_of_mem ?_
      intro a b ha hb hne heq
      apply hne
      have htake : a.take S = b.take S := by
        apply List.ext_getElem?
        intro j
        by_cases hj : j < S
        · obtain ⟨ch, hch⟩ := hagree j hj
          rw [List.getElem?_take_of_lt hj, List.getElem?_take_of_lt hj, hch a ha, hch b hb]
        · have hna : (a.take S)[j]? = none := by
            apply List.getElem?_eq_none
            simp only [List.length_take]
            omega
          have hnb : (b.take S)[j]? = none := by
            apply List.getElem?_eq_none
            simp only [List.length_take]
            omega
          rw [hna, hnb]
      calc a = a.take S ++ a.drop S := (List.take_append_drop S a).symm
        _ = b.take S ++ b.drop S := by rw [htake, heq]
        _ = b := List.take_append_drop S b
    · intro q hq
      rw [List.mem_map] at hq
      obtain ⟨p, hp, rfl⟩ := hq
      rw [List.getElem?_drop]
      intro hc
      have hsp := hslash p hp
      have hlen : S - 1 < p.length := by
        by_contra hcon
        rw [List.getElem?_eq_none (Nat.le_of_not_lt hcon)] at hsp
        exact Option.noConfusion hsp
      refine hdbl p hp (S - 1) hlen ⟨hsp, ?_⟩
      have hS1 : S - 1 + 1 = S := by omega
      rw [hS1]
      simpa using hc
  rcases create_trace_names_loop_slash (p0 :: rest) (p0.length + 1) hnul 0 0 (Or.inl rfl)
    with h0 | hslash
  · have hpos := create_trace_names_loop_pos p0 rest habs
    omega
  · have hpos := create_trace_names_loop_pos p0 rest habs
    have hagree := create_trace_names_loop_agree (p0 :: rest) (p0.length + 1) hnul 0 0
      (fun j hj => absurd hj (Nat.not_lt_zero j)) (Nat.le_refl 0)
    have hmain := key _ hpos hagree hslash
    simpa [create_trace_names] using hmain

theorem claim_C7_witness :
    (∀ p ∈ ["/a/b/x".toList, "/a/b/y/z".toList], p[0]? = some '/') ∧
    (∀ p ∈ ["/a/b/x".toList, "/a/b/y/z".toList], p[p.length - 1]? ≠ some '/') ∧
    (∀ p ∈ ["/a/b/x".toList, "/a/b/y/z".toList], ∀ j, j < p.length →
      ¬(p[j]? = some '/' ∧ p[j + 1]? = some '/')) ∧
    (∀ p ∈ ["/a/b/x".toList, "/a/b/y/z".toList], nulChar ∉ p) ∧
    (["/a/b/x".toList, "/a/b/y/z".toList] : List (List Char)).Pairwise (fun a b => a ≠ b) ∧
    ((create_trace_names "/a/b/x".toList ["/a/b/y/z".toList]).Pairwise (fun a b => a ≠ b) ∧
      ∀ q ∈ create_trace_names "/a/b/x".toList ["/a/b/y/z".toList], q[0]? ≠ some '/') :=
  ⟨by decide, by decide, by decide, by decide, by decide,
    claim_C7 "/a/b/x".toList ["/a/b/y/z".toList]
      (by decide) (by decide) (by decide) (by decide) (by decide)⟩

theorem claim_C9_witness :
    metadataTextSig <+: (ctf_fs_query_metadata_info "foo".toList true).text ∧
    (ctf_fs_query_metadata_info "foo".toList true).text =
      metadataTextSig ++ (" */\n\n".toList) ++ "foo".toList ∧
    (ctf_fs_query_metadata_info "foo".toList true).is_packetized = true :=
  ⟨(claim_C9 "foo".toList true).1,
    (claim_C9 "foo".toList true).2.2.1 (by decide),
    (claim_C9 "foo".toList true).2.2.2⟩

end Babeltrace
